/-
Verification of the gitlab-cli repository's core logic: the multi-profile
configuration resolver (`resolveGitlabProfiles` and its helpers), the paged
terminal selector state machine, the favorites toggle, and the
`review-assigned` sequential multi-profile command loop.

Each definition is a shallow embedding of the corresponding TypeScript
function; theorems settle the specification claims about them.
-/
import Mathlib

namespace GitlabCli

/-! ### String helpers

`trim` models JavaScript `String.prototype.trim` (whitespace stripped from
both ends), `normalize` models the resolver's `normalize` (trim, empty means
absent), `stripTrailingSlashes`/`normalizeBaseUrl` model the
`baseUrl.replace(/\/+$/, '') || baseUrl` idiom, and `parseCsv` models the
comma-separated `--profile` / `GITLAB_PROFILES` parser. -/

/-- Strip leading and trailing whitespace from a character list. -/
def trimChars (l : List Char) : List Char :=
  ((l.dropWhile Char.isWhitespace).reverse.dropWhile Char.isWhitespace).reverse

/-- Model of JavaScript `value.trim()`. -/
def trim (s : String) : String :=
  String.mk (trimChars s.data)

/-- Model of the resolver's `normalize`: `undefined`/empty input maps to
`none`, otherwise the trimmed value, or `none` if trimming leaves nothing. -/
def normalize (value : Option String) : Option String :=
  match value with
  | none => none
  | some s =>
    let trimmed := trim s
    if trimmed.length > 0 then some trimmed else none

/-- Model of `s.replace(/\/+$/, '')`: drop every trailing `'/'`. -/
def stripTrailingSlashes (s : String) : String :=
  String.mk ((s.data.reverse.dropWhile (fun c => c == '/')).reverse)

/-- Model of `baseUrl.replace(/\/+$/, '') || baseUrl`: strip trailing
slashes, but keep the original value when stripping leaves an empty string. -/
def normalizeBaseUrl (baseUrl : String) : String :=
  let stripped := stripTrailingSlashes baseUrl
  if stripped = "" then baseUrl else stripped

/-- Split a character list at commas (model of `value.split(',')`). -/
def splitCommaAux : List Char → List Char → List (List Char)
  | [], acc => [acc.reverse]
  | c :: cs, acc =>
    if c == ',' then acc.reverse :: splitCommaAux cs []
    else splitCommaAux cs (c :: acc)

/-- Model of JavaScript `s.split(',')`. -/
def splitOnComma (s : String) : List String :=
  (splitCommaAux s.data []).map String.mk

/-- Model of the resolver's `parseCsv`: split a comma-separated value into
trimmed, non-empty entries; absent input yields the empty list. -/
def parseCsv (value : Option String) : List String :=
  match value with
  | none => []
  | some v =>
    if v = "" then []
    else ((splitOnComma v).map trim).filter (fun s => s != "")

/-- Model of the JavaScript `a ?? b` null-coalescing operator on optional
strings. -/
def coalesce (a b : Option String) : Option String :=
  match a with
  | some v => some v
  | none => b

/-! ### Configuration resolver data model -/

/-- CLI-supplied options (the `GitlabConfigInput` and `MultiProfileInput`
interfaces merged, as `resolveGitlabProfiles` receives them). -/
structure GitlabConfigInput where
  projectId : Option String := none
  projectPath : Option String := none
  baseUrl : Option String := none
  token : Option String := none
  profile : Option String := none
  allProfiles : Bool := false
deriving Repr, DecidableEq

/-- A fully resolved single configuration (the `GitlabConfig` interface). -/
structure GitlabConfig where
  baseUrl : String
  token : String
  projectRef : String
deriving Repr, DecidableEq

/-- One named profile in the config document (`GitlabCliProfile`). -/
structure GitlabCliProfile where
  baseUrl : Option String := none
  token : Option String := none
  projectId : Option String := none
  projectPath : Option String := none
  displayName : Option String := none
  email : Option String := none
  username : Option String := none
deriving Repr, DecidableEq

/-- The loaded config document (`GitlabCliConfig`): top-level profile fields
plus a default-profile name and an ordered map of named profiles. JavaScript
objects keep insertion order, so `profiles` is an ordered association list. -/
structure GitlabCliConfig where
  baseUrl : Option String := none
  token : Option String := none
  projectId : Option String := none
  projectPath : Option String := none
  defaultProfile : Option String := none
  profiles : Option (List (String × GitlabCliProfile)) := none
deriving Repr, DecidableEq

/-- One entry of the list returned by `resolveGitlabProfiles`
(`ResolvedProfile`). -/
structure ResolvedProfile where
  name : Option String := none
  baseUrl : String
  token : String
  projectRef : Option String := none
deriving Repr, DecidableEq

/-- `fileConfig.profiles?.[name]`: look a profile name up in the document. -/
def lookupProfile (profiles : Option (List (String × GitlabCliProfile)))
    (name : String) : Option GitlabCliProfile :=
  match profiles with
  | none => none
  | some ps => (ps.find? (fun p => p.1 == name)).map Prod.snd

/-- Sanitize one character of a profile name for use in an environment
variable key (`[^A-Z0-9_]` becomes `_`, applied after upper-casing). -/
def envSanitizeChar (c : Char) : Char :=
  if ('A' ≤ c ∧ c ≤ 'Z') ∨ ('0' ≤ c ∧ c ≤ '9') ∨ c = '_' then c else '_'

/-- Model of `envKeyForProfile`: `GITLAB_<NAME>_<KEY>` with the profile name
upper-cased and sanitized. -/
def envKeyForProfile (profileName : String) (key : String) : String :=
  "GITLAB_" ++ String.mk ((profileName.data.map Char.toUpper).map envSanitizeChar) ++ "_" ++ key

/-! ### The resolver

`resolveGitlabConfig` and `resolveGitlabProfiles` are embedded with the
process environment as a lookup function `String → Option String` and the
c12-loaded config document as an explicit `GitlabCliConfig` argument (the
file system read in `loadC12Config` is outside the pure logic). Thrown
errors become `Except.error` carrying the exact message. -/

/-- Model of `resolveGitlabConfig`: single-config resolution from CLI options
and legacy environment variables. Always requires a token and a project
reference. -/
def resolveGitlabConfig (options : GitlabConfigInput)
    (env : String → Option String) : Except String GitlabConfig :=
  let baseUrl := (coalesce (normalize options.baseUrl)
    (normalize (env "GITLAB_BASE_URL"))).getD "https://gitlab.com"
  let token := coalesce (normalize options.token) (normalize (env "GITLAB_TOKEN"))
  let projectRef := coalesce (normalize options.projectId)
    (coalesce (normalize options.projectPath)
      (coalesce (normalize (env "GITLAB_PROJECT_ID"))
        (normalize (env "GITLAB_PROJECT_PATH"))))
  match token with
  | none => .error "Missing GitLab token. Provide --token or set GITLAB_TOKEN."
  | some token =>
    match projectRef with
    | none => .error "Missing project reference. Use --project-id/--project-path or env variables."
    | some projectRef =>
      .ok { baseUrl := normalizeBaseUrl baseUrl, token := token, projectRef := projectRef }

/-- Wrap a single resolved config as the one-element profile list
(`[resolveGitlabConfig(options)]` return sites). -/
def configToProfile (c : GitlabConfig) : ResolvedProfile :=
  { name := none, baseUrl := c.baseUrl, token := c.token, projectRef := some c.projectRef }

/-- The per-name loop of the config-profile stage of `resolveGitlabProfiles`
(lines resolving `requestedProfiles` against `fileConfig.profiles`): names
absent from the document are skipped; a present name missing a token, or
missing a required project reference, throws. -/
def resolveFromConfigProfiles (fileConfig : GitlabCliConfig)
    (projectOverride : Option String) (requireProject : Bool) :
    List String → Except String (List ResolvedProfile)
  | [] => .ok []
  | name :: rest =>
    match lookupProfile fileConfig.profiles name with
    | none => resolveFromConfigProfiles fileConfig projectOverride requireProject rest
    | some profile =>
      let baseUrl := (coalesce (normalize profile.baseUrl)
        (normalize fileConfig.baseUrl)).getD "https://gitlab.com"
      match coalesce (normalize profile.token) (normalize fileConfig.token) with
      | none => .error ("Missing token for profile \"" ++ name ++ "\" in config.")
      | some token =>
        let projectRefFromConfig := coalesce (normalize profile.projectId)
          (coalesce (normalize profile.projectPath)
            (coalesce (normalize fileConfig.projectId) (normalize fileConfig.projectPath)))
        let projectRef := coalesce projectOverride projectRefFromConfig
        if projectRef = none ∧ requireProject = true then
          .error ("Missing project reference for profile \"" ++ name
            ++ "\" in config. Provide --project-id/--project-path to override.")
        else
          match resolveFromConfigProfiles fileConfig projectOverride requireProject rest with
          | .error e => .error e
          | .ok others =>
            .ok ({ name := some name, baseUrl := normalizeBaseUrl baseUrl,
                   token := token, projectRef := projectRef } :: others)

/-- The per-name loop of the env-profile stage of `resolveGitlabProfiles`
(`GITLAB_<NAME>_TOKEN` etc.): a missing token or missing required project
reference throws, naming the expected variables. -/
def resolveFromEnvProfiles (env : String → Option String)
    (projectOverride : Option String) (requireProject : Bool) :
    List String → Except String (List ResolvedProfile)
  | [] => .ok []
  | name :: rest =>
    match normalize (env (envKeyForProfile name "TOKEN")) with
    | none => .error ("Missing token for profile \"" ++ name ++ "\". Set "
        ++ envKeyForProfile name "TOKEN" ++ ".")
    | some token =>
      let projectIdEnv := normalize (env (envKeyForProfile name "PROJECT_ID"))
      let projectPathEnv := normalize (env (envKeyForProfile name "PROJECT_PATH"))
      let baseUrl := (coalesce (normalize (env (envKeyForProfile name "BASE_URL")))
        (normalize (env "GITLAB_BASE_URL"))).getD "https://gitlab.com"
      let projectRefEnv := coalesce projectIdEnv projectPathEnv
      let projectRef := coalesce projectOverride projectRefEnv
      if projectRef = none ∧ requireProject = true then
        .error ("Missing project reference for profile \"" ++ name ++ "\". Set "
          ++ envKeyForProfile name "PROJECT_ID" ++ " or "
          ++ envKeyForProfile name "PROJECT_PATH"
          ++ ", or provide --project-id/--project-path.")
      else
        match resolveFromEnvProfiles env projectOverride requireProject rest with
        | .error e => .error e
        | .ok others =>
          .ok ({ name := some name, baseUrl := normalizeBaseUrl baseUrl,
                 token := token, projectRef := projectRef } :: others)

/-- The terminal stage of `resolveGitlabProfiles`: legacy single-env
resolution, falling back to `resolveGitlabConfig` (which raises the standard
errors) when it cannot produce a profile. -/
def resolveLegacyStage (options : GitlabConfigInput) (env : String → Option String)
    (requireProject : Bool) (projectOverride : Option String) :
    Except String (List ResolvedProfile) :=
  let baseUrl := (coalesce (normalize options.baseUrl)
    (normalize (env "GITLAB_BASE_URL"))).getD "https://gitlab.com"
  let token := coalesce (normalize options.token) (normalize (env "GITLAB_TOKEN"))
  let projectRef := coalesce projectOverride
    (coalesce (normalize (env "GITLAB_PROJECT_ID")) (normalize (env "GITLAB_PROJECT_PATH")))
  match token with
  | some token =>
    if projectRef.isSome ∨ requireProject = false then
      .ok [{ name := none, baseUrl := normalizeBaseUrl baseUrl,
             token := token, projectRef := projectRef }]
    else (resolveGitlabConfig options env).map (fun c => [configToProfile c])
  | none => (resolveGitlabConfig options env).map (fun c => [configToProfile c])

/-- The `GITLAB_PROFILES` stage of `resolveGitlabProfiles`, falling through
to the legacy stage when it resolves nothing. -/
def resolveEnvProfilesStage (options : GitlabConfigInput) (env : String → Option String)
    (requireProject : Bool) (projectOverride : Option String)
    (requestedProfilesFromFlag : List String) : Except String (List ResolvedProfile) :=
  let declaredProfiles := parseCsv (normalize (env "GITLAB_PROFILES"))
  let requestedProfilesEnv :=
    if options.allProfiles then declaredProfiles
    else if requestedProfilesFromFlag ≠ [] then requestedProfilesFromFlag
    else
      match declaredProfiles with
      | [] => []
      | d :: _ => [d]
  match resolveFromEnvProfiles env projectOverride requireProject requestedProfilesEnv with
  | .error e => .error e
  | .ok resolved =>
    if resolved ≠ [] then .ok resolved
    else resolveLegacyStage options env requireProject projectOverride

/-- Model of `resolveGitlabProfiles`: resolve one or multiple GitLab
configs. Precedence: explicit CLI token/base-url, config-file profiles,
top-level config, `GITLAB_PROFILES` env profiles, legacy single envs,
terminal `resolveGitlabConfig` failure. -/
def resolveGitlabProfiles (options : GitlabConfigInput) (env : String → Option String)
    (fileConfig : GitlabCliConfig) (requireProject : Bool) :
    Except String (List ResolvedProfile) :=
  let projectOverride := coalesce (normalize options.projectId) (normalize options.projectPath)
  let explicitToken := normalize options.token
  let explicitBaseUrl := normalize options.baseUrl
  if explicitToken.isSome ∨ explicitBaseUrl.isSome then
    (resolveGitlabConfig options env).map (fun c => [configToProfile c])
  else
    let configuredProfiles := (fileConfig.profiles.getD []).map Prod.fst
    let requestedProfilesFromFlag := parseCsv (normalize options.profile)
    let requestedProfilesFromConfigDefault :=
      match configuredProfiles with
      | [] => []
      | c0 :: _ =>
        match coalesce (normalize fileConfig.defaultProfile) (some c0) with
        | some d => if d = "" then [] else [d]
        | none => []
    let requestedProfiles :=
      if options.allProfiles then configuredProfiles
      else if requestedProfilesFromFlag ≠ [] then requestedProfilesFromFlag
      else requestedProfilesFromConfigDefault
    match resolveFromConfigProfiles fileConfig projectOverride requireProject requestedProfiles with
    | .error e => .error e
    | .ok resolvedFromConfig =>
      if resolvedFromConfig ≠ [] then .ok resolvedFromConfig
      else
        let baseUrlTop := (normalize fileConfig.baseUrl).getD "https://gitlab.com"
        let tokenTop := normalize fileConfig.token
        let projectRefTop := coalesce projectOverride
          (coalesce (normalize fileConfig.projectId) (normalize fileConfig.projectPath))
        match tokenTop with
        | some token =>
          if projectRefTop.isSome ∨ requireProject = false then
            .ok [{ name := none, baseUrl := normalizeBaseUrl baseUrlTop,
                   token := token, projectRef := projectRefTop }]
          else
            resolveEnvProfilesStage options env requireProject projectOverride
              requestedProfilesFromFlag
        | none =>
          resolveEnvProfilesStage options env requireProject projectOverride
            requestedProfilesFromFlag

/-! ### Paged selector state machine

Model of `selectFromPagedList`'s keypress handler and
`ensureSelectionVisible`, over item count `n` and `pageSize`. Rendering and
the terminating `enter`/`escape` events do not change the selection state;
the state-changing events are modelled as `PagerKey`. -/

/-- The selection state of the paged selector: `selectionIndex` and the
`pageIndex` shown. -/
structure PagerState where
  selectionIndex : Nat
  pageIndex : Nat
deriving Repr, DecidableEq

/-- State-changing keypresses of the paged selector. `left` stands for
left/pageup, `right` for right/pagedown; `digit d` is the quick-select key
for `d` in 1–9 (other digits leave the state unchanged, like any unhandled
key); `favToggle` is the `f` favorite-toggle key, whose completion re-runs
`ensureSelectionVisible`. -/
inductive PagerKey where
  | up
  | down
  | left
  | right
  | digit (d : Nat)
  | favToggle
deriving Repr, DecidableEq

/-- `Math.max(1, Math.ceil(items.length / pageSize))`. -/
def totalPages (n pageSize : Nat) : Nat :=
  max 1 ((n + pageSize - 1) / pageSize)

/-- Model of `ensureSelectionVisible`: clamp the selection into the current
page's visible range. -/
def ensureSelectionVisible (n pageSize : Nat) (s : PagerState) : PagerState :=
  let start := s.pageIndex * pageSize
  let endIdx := min (start + pageSize - 1) (n - 1)
  if s.selectionIndex < start then { s with selectionIndex := start }
  else if s.selectionIndex > endIdx then { s with selectionIndex := endIdx }
  else s

/-- Model of the keypress handler of `selectFromPagedList`: one transition of
the selector state machine. -/
def pagerStep (n pageSize : Nat) (s : PagerState) : PagerKey → PagerState
  | .left =>
    if s.pageIndex > 0 then
      ensureSelectionVisible n pageSize { s with pageIndex := s.pageIndex - 1 }
    else s
  | .right =>
    if s.pageIndex < totalPages n pageSize - 1 then
      ensureSelectionVisible n pageSize { s with pageIndex := s.pageIndex + 1 }
    else s
  | .up =>
    if s.selectionIndex > 0 then
      { selectionIndex := s.selectionIndex - 1, pageIndex := (s.selectionIndex - 1) / pageSize }
    else s
  | .down =>
    if s.selectionIndex < n - 1 then
      { selectionIndex := s.selectionIndex + 1, pageIndex := (s.selectionIndex + 1) / pageSize }
    else s
  | .digit d =>
    if 1 ≤ d ∧ d ≤ 9 then
      let start := s.pageIndex * pageSize
      let target := start + (d - 1)
      if target < n ∧ target < start + pageSize then { s with selectionIndex := target }
      else s
    else s
  | .favToggle => ensureSelectionVisible n pageSize s

/-- Run the selector from its initial state (`selectionIndex = 0`,
`pageIndex = 0`) over a sequence of keypresses. -/
def pagerRun (n pageSize : Nat) (keys : List PagerKey) : PagerState :=
  keys.foldl (pagerStep n pageSize) { selectionIndex := 0, pageIndex := 0 }

/-- The paged-selector invariant: the selection stays in bounds and the page
index is the derived `floor(selectionIndex / pageSize)`. -/
def PagerInv (n pageSize : Nat) (s : PagerState) : Prop :=
  s.selectionIndex < n ∧ s.pageIndex = s.selectionIndex / pageSize

/-! ### Favorites -/

/-- A persisted favorite entry (`FavoriteProjectRecord`). -/
structure FavoriteProjectRecord where
  projectRef : String
  profile : Option String := none
  label : Option String := none
  webUrl : Option String := none
  lastActivity : Option String := none
deriving Repr, DecidableEq

/-- An interactive project choice (`InteractiveProjectChoice`), as far as
favorite toggling consumes it. -/
structure InteractiveProjectChoice where
  projectRef : String
  label : String
  profileName : Option String := none
  lastActivity : Option String := none
  webUrl : Option String := none
  isFavorite : Bool := false
deriving Repr, DecidableEq

/-- Model of `favoriteKey`: `profile-or-default:::projectRef`, with the
profile trimmed and an absent/blank profile replaced by `default`. -/
def favoriteKey (projectRef : String) (profile : Option String) : String :=
  let normalizedProfile :=
    match profile with
    | some p => if (trim p).length > 0 then trim p else "default"
    | none => "default"
  normalizedProfile ++ ":::" ++ projectRef

/-- The favorite key of a persisted record. -/
def recordKey (record : FavoriteProjectRecord) : String :=
  favoriteKey record.projectRef record.profile

/-- The fresh record that `toggleFavorite` appends when the choice is not
yet a favorite. -/
def newFavoriteRecord (choice : InteractiveProjectChoice) : FavoriteProjectRecord :=
  { projectRef := choice.projectRef, profile := choice.profileName,
    label := some choice.label, webUrl := choice.webUrl,
    lastActivity := choice.lastActivity }

/-- Model of the interactive shell's `toggleFavorite` effect on the
persisted favorites collection: compute the key, test membership in the
derived favorite-key set, and either remove all records with that key or
filter them out and append a fresh record for the choice. -/
def toggleFavorite (favoriteRecords : List FavoriteProjectRecord)
    (choice : InteractiveProjectChoice) : List FavoriteProjectRecord :=
  let key := favoriteKey choice.projectRef choice.profileName
  if key ∈ favoriteRecords.map recordKey then
    favoriteRecords.filter (fun record => recordKey record != key)
  else
    favoriteRecords.filter (fun record => recordKey record != key)
      ++ [newFavoriteRecord choice]

/-! ### The review-assigned command loop

Model of `registerReviewAssignedCommand`'s action: for each resolved
profile, the command fetches the current user and the merge-request list
(`fetch`, which can fail with a transport error that is NOT caught), then
processes each assigned merge request, catching per-item failures and
recording them; after all profiles it throws an aggregate error exactly when
some item failed. `fetch` returns the per-item outcomes (`true` = the item's
`processMergeRequest` succeeded). -/

/-- One resolved profile's execution data for `review-assigned`. -/
structure ProfileRun where
  fetch : Except String (List Bool)
deriving Repr

/-- The profile loop of `review-assigned`: returns the per-profile lists of
item outcomes actually attempted, and either the uncaught fetch error or the
aggregated had-failures flag. -/
def runReviewProfiles : List ProfileRun → List (List Bool) × Except String Bool
  | [] => ([], .ok false)
  | p :: rest =>
    match p.fetch with
    | .error e => ([], .error e)
    | .ok outcomes =>
      let hadFailures := outcomes.any (fun ok => !ok)
      match runReviewProfiles rest with
      | (attempted, .error e) => (outcomes :: attempted, .error e)
      | (attempted, .ok laterFailures) =>
        (outcomes :: attempted, .ok (hadFailures || laterFailures))

/-- The whole `review-assigned` action: run the profile loop, then throw the
aggregate error when any item failed. -/
def reviewAssignedCommand (profiles : List ProfileRun) :
    List (List Bool) × Except String Unit :=
  match runReviewProfiles profiles with
  | (attempted, .error e) => (attempted, .error e)
  | (attempted, .ok hadFailuresOverall) =>
    (attempted,
      if hadFailuresOverall then
        .error "At least one merge request failed across profiles. See logs above for details."
      else .ok ())

/-! ### Concrete instances used by witnesses and counterexamples -/

/-- A config document with one profile `a` (token and project id stored). -/
def cfgDupExample : GitlabCliConfig :=
  { profiles := some [("a", { token := some "token-a", projectId := some "111" })] }

/-- The profile that resolving `a` from `cfgDupExample` produces. -/
def profileDupExample : ResolvedProfile :=
  { name := some "a", baseUrl := "https://gitlab.com", token := "token-a",
    projectRef := some "111" }

/-- The spec's `teamA` example document. -/
def cfgTeamA : GitlabCliConfig :=
  { defaultProfile := some "teamA",
    profiles := some [("teamA", { token := some "token-a", projectId := some "111" })] }

/-- The empty environment. -/
def emptyEnv : String → Option String := fun _ => none

end GitlabCli

namespace GitlabCli

/-! ### Helper lemmas about the string operations -/

theorem dropWhile_dropWhile_self (p : Char → Bool) (l : List Char) :
    (l.dropWhile p).dropWhile p = l.dropWhile p := by
  induction l with
  | nil => rfl
  | cons c cs ih =>
    by_cases h : p c
    · simp [List.dropWhile_cons, h, ih]
    · simp [List.dropWhile_cons, h]

theorem stripTrailingSlashes_idem (s : String) :
    stripTrailingSlashes (stripTrailingSlashes s) = stripTrailingSlashes s := by
  simp [stripTrailingSlashes, dropWhile_dropWhile_self]

theorem normalizeBaseUrl_idem (s : String) :
    normalizeBaseUrl (normalizeBaseUrl s) = normalizeBaseUrl s := by
  by_cases h : stripTrailingSlashes s = ""
  · simp [normalizeBaseUrl, h]
  · simp [normalizeBaseUrl, h, stripTrailingSlashes_idem s]

theorem normalizeBaseUrl_of_strip_empty (s : String)
    (h : stripTrailingSlashes s = "") : normalizeBaseUrl s = s := by
  simp [normalizeBaseUrl, h]

theorem normalizeBaseUrl_ne_empty (s : String) (h : s ≠ "") :
    normalizeBaseUrl s ≠ "" := by
  unfold normalizeBaseUrl
  by_cases hs : stripTrailingSlashes s = "" <;> simp [hs, h]

/-! ### Helper lemmas about favorites -/

theorem mem_keys_filter (records : List FavoriteProjectRecord) (key k : String) :
    k ∈ (records.filter (fun r => recordKey r != key)).map recordKey
      ↔ k ≠ key ∧ k ∈ records.map recordKey := by
  simp only [List.mem_map, List.mem_filter, bne_iff_ne, ne_eq]
  constructor
  · rintro ⟨r, ⟨hr, hne⟩, rfl⟩
    exact ⟨hne, r, hr, rfl⟩
  · rintro ⟨hne, r, hr, rfl⟩
    exact ⟨r, ⟨hr, hne⟩, rfl⟩

theorem filter_key_filter_key (records : List FavoriteProjectRecord) (key : String) :
    (records.filter (fun r => recordKey r != key)).filter (fun r => recordKey r != key)
      = records.filter (fun r => recordKey r != key) := by
  rw [List.filter_filter]
  simp [Bool.and_self]

theorem filter_key_of_not_mem (records : List FavoriteProjectRecord) (key : String)
    (h : key ∉ records.map recordKey) :
    records.filter (fun r => recordKey r != key) = records := by
  rw [List.filter_eq_self]
  intro r hr
  simp only [bne_iff_ne, ne_eq]
  intro hkey
  exact h (hkey ▸ List.mem_map_of_mem recordKey hr)

/-! ### Helper lemmas about the review-assigned loop -/

theorem runReviewProfiles_all_ok (profiles : List ProfileRun)
    (h : ∀ p ∈ profiles, ∃ outcomes, p.fetch = .ok outcomes) :
    runReviewProfiles profiles
      = (profiles.map (fun p => p.fetch.toOption.getD []),
         .ok (profiles.any (fun p => (p.fetch.toOption.getD []).any (fun ok => !ok)))) := by
  induction profiles with
  | nil => rfl
  | cons p rest ih =>
    obtain ⟨outcomes, hp⟩ := h p (List.mem_cons_self p rest)
    have hrest := ih (fun q hq => h q (List.mem_cons_of_mem p hq))
    simp [runReviewProfiles, hp, hrest, Except.toOption]

/-! ### Helper lemmas about the resolver -/

theorem configMap_ne_nil (options : GitlabConfigInput) (env : String → Option String)
    (l : List ResolvedProfile)
    (h : (resolveGitlabConfig options env).map (fun c => [configToProfile c]) = .ok l) :
    l ≠ [] := by
  cases hc : resolveGitlabConfig options env with
  | error e =>
    rw [hc] at h
    exact Except.noConfusion h
  | ok c =>
    rw [hc] at h
    cases h
    exact List.cons_ne_nil _ _

theorem resolveLegacyStage_ne_nil (options : GitlabConfigInput)
    (env : String → Option String) (requireProject : Bool)
    (projectOverride : Option String) (l : List ResolvedProfile)
    (h : resolveLegacyStage options env requireProject projectOverride = .ok l) :
    l ≠ [] := by
  simp only [resolveLegacyStage] at h
  split at h
  · split at h
    · cases h
      exact List.cons_ne_nil _ _
    · exact configMap_ne_nil options env l h
  · exact configMap_ne_nil options env l h

theorem resolveEnvProfilesStage_ne_nil (options : GitlabConfigInput)
    (env : String → Option String) (requireProject : Bool)
    (projectOverride : Option String) (requestedProfilesFromFlag : List String)
    (l : List ResolvedProfile)
    (h : resolveEnvProfilesStage options env requireProject projectOverride
          requestedProfilesFromFlag = .ok l) :
    l ≠ [] := by
  simp only [resolveEnvProfilesStage] at h
  split at h
  · exact Except.noConfusion h
  · rename_i resolved heq
    split at h
    · cases h
      assumption
    · exact resolveLegacyStage_ne_nil options env requireProject projectOverride l h

/-! ### Helper lemmas about the paged selector -/

theorem div_eq_of_between {p q r : Nat} (h1 : q * p ≤ r) (h2 : r < q * p + p) :
    r / p = q :=
  Nat.div_eq_of_lt_le h1 (by rw [Nat.succ_mul]; exact h2)

theorem pagerInv_bounds {n p : Nat} (hp : 0 < p) {s : PagerState}
    (h : PagerInv n p s) :
    s.pageIndex * p ≤ s.selectionIndex ∧ s.selectionIndex < s.pageIndex * p + p := by
  obtain ⟨_, hpage⟩ := h
  have hdm := Nat.div_add_mod s.selectionIndex p
  have hmod := Nat.mod_lt s.selectionIndex hp
  rw [hpage, Nat.mul_comm]
  omega

theorem ensureSelectionVisible_of_inv {n p : Nat} (hp : 0 < p) (s : PagerState)
    (h : PagerInv n p s) : ensureSelectionVisible n p s = s := by
  obtain ⟨hb1, hb2⟩ := pagerInv_bounds hp h
  obtain ⟨hsel, _⟩ := h
  simp only [ensureSelectionVisible]
  rw [if_neg (by omega), if_neg (by omega)]

theorem totalPages_eq (n p : Nat) (hn : 0 < n) (hp : 0 < p) :
    totalPages n p = (n + p - 1) / p := by
  rw [totalPages]
  refine max_eq_right ?_
  rw [Nat.le_div_iff_mul_le hp]
  omega

theorem pagerStep_preserves_inv (n p : Nat) (hn : 0 < n) (hp : 0 < p)
    (s : PagerState) (k : PagerKey) (h : PagerInv n p s) :
    PagerInv n p (pagerStep n p s k) := by
  obtain ⟨hb1, hb2⟩ := pagerInv_bounds hp h
  obtain ⟨hsel, hpage⟩ := h
  cases k with
  | up =>
    by_cases h0 : s.selectionIndex > 0
    · simp only [pagerStep, if_pos h0]
      refine ⟨?_, rfl⟩
      show s.selectionIndex - 1 < n
      omega
    · simp only [pagerStep, if_neg h0]
      exact ⟨hsel, hpage⟩
  | down =>
    by_cases h0 : s.selectionIndex < n - 1
    · simp only [pagerStep, if_pos h0]
      refine ⟨?_, rfl⟩
      show s.selectionIndex + 1 < n
      omega
    · simp only [pagerStep, if_neg h0]
      exact ⟨hsel, hpage⟩
  | favToggle =>
    simp only [pagerStep]
    rw [ensureSelectionVisible_of_inv hp s ⟨hsel, hpage⟩]
    exact ⟨hsel, hpage⟩
  | digit d =>
    simp only [pagerStep]
    split
    · split
      · rename_i hd hcond
        refine ⟨hcond.1, ?_⟩
        show s.pageIndex = (s.pageIndex * p + (d - 1)) / p
        exact (div_eq_of_between (by omega) (by omega)).symm
      · exact ⟨hsel, hpage⟩
    · exact ⟨hsel, hpage⟩
  | left =>
    by_cases h0 : s.pageIndex > 0
    · simp only [pagerStep, if_pos h0]
      have hb1' : (s.pageIndex - 1) * p + p ≤ s.selectionIndex := by
        have hm : s.pageIndex - 1 + 1 = s.pageIndex := by omega
        have hx : (s.pageIndex - 1 + 1) * p ≤ s.selectionIndex := by rw [hm]; exact hb1
        rw [Nat.succ_mul] at hx
        exact hx
      have hmin : min ((s.pageIndex - 1) * p + p - 1) (n - 1)
          = (s.pageIndex - 1) * p + p - 1 :=
        min_eq_left (by omega)
      simp only [ensureSelectionVisible]
      rw [hmin, if_neg (by omega), if_pos (by omega)]
      refine ⟨?_, ?_⟩
      · show (s.pageIndex - 1) * p + p - 1 < n
        omega
      · show s.pageIndex - 1 = ((s.pageIndex - 1) * p + p - 1) / p
        exact (div_eq_of_between (by omega) (by omega)).symm
    · simp only [pagerStep, if_neg h0]
      exact ⟨hsel, hpage⟩
  | right =>
    by_cases h0 : s.pageIndex < totalPages n p - 1
    · simp only [pagerStep, if_pos h0]
      have htp := totalPages_eq n p hn hp
      have hceil : ((n + p - 1) / p) * p ≤ n + p - 1 := Nat.div_mul_le_self _ _
      have h2 : s.pageIndex + 2 ≤ totalPages n p := by omega
      have h3 : (s.pageIndex + 2) * p ≤ totalPages n p * p := Nat.mul_le_mul_right p h2
      have h4 : totalPages n p * p ≤ n + p - 1 := by rw [htp]; exact hceil
      have h5 : (s.pageIndex + 2) * p = (s.pageIndex + 1) * p + p := by rw [Nat.succ_mul]
      have hstart : (s.pageIndex + 1) * p ≤ n - 1 := by omega
      have hb2' : s.selectionIndex < (s.pageIndex + 1) * p := by
        rw [Nat.succ_mul]
        omega
      simp only [ensureSelectionVisible]
      rw [if_pos hb2']
      refine ⟨?_, ?_⟩
      · show (s.pageIndex + 1) * p < n
        omega
      · show s.pageIndex + 1 = (s.pageIndex + 1) * p / p
        exact (div_eq_of_between (by omega) (by omega)).symm
    · simp only [pagerStep, if_neg h0]
      exact ⟨hsel, hpage⟩

end GitlabCli

namespace GitlabCli

/-! ### Claim theorems -/

/-- C1: whenever the CLI options supply both a token and a base URL,
resolution short-circuits to a single profile whose token is the
(normalized) CLI token, whose project reference is the CLI override falling
back to `GITLAB_PROJECT_ID`/`GITLAB_PROJECT_PATH`, and whose base URL is the
normalized CLI base URL — for EVERY config document and every
`requireProject` value, so it is independent of any configured or declared
profiles. -/
theorem c1_cli_overrides_single_profile (options : GitlabConfigInput)
    (env : String → Option String) (fileConfig : GitlabCliConfig)
    (requireProject : Bool) (t b r : String)
    (ht : normalize options.token = some t)
    (hb : normalize options.baseUrl = some b)
    (hr : coalesce (normalize options.projectId)
      (coalesce (normalize options.projectPath)
        (coalesce (normalize (env "GITLAB_PROJECT_ID"))
          (normalize (env "GITLAB_PROJECT_PATH")))) = some r) :
    resolveGitlabProfiles options env fileConfig requireProject
      = .ok [{ name := none, baseUrl := normalizeBaseUrl b, token := t,
               projectRef := some r }] := by
  simp only [resolveGitlabProfiles, ht, Option.isSome_some, true_or, if_true]
  simp only [resolveGitlabConfig, ht, hb, hr]
  simp only [coalesce, Option.getD_some, Except.map, configToProfile]

/-- C2 counterexample: with a CLI token, no project reference anywhere and
`requireProject = false`, resolution does NOT succeed with an absent project
reference — it throws the missing-project-reference error, because the
explicit-CLI branch delegates to `resolveGitlabConfig`, which ignores
`requireProject`. -/
theorem c2_requireProject_counterexample :
    resolveGitlabProfiles { token := some "cli-token" } emptyEnv {} false
      = .error "Missing project reference. Use --project-id/--project-path or env variables." :=
  rfl

/-- C2 amended: at precedence level 1 (a CLI token is supplied), the
`requireProject` option is ignored: for every invocation whose CLI token
normalizes to a value and whose project-reference chain (CLI override, then
`GITLAB_PROJECT_ID`/`GITLAB_PROJECT_PATH`) is empty, resolution throws the
missing-project-reference error even when `requireProject = false`. -/
theorem c2_amended_requireProject_ignored (options : GitlabConfigInput)
    (env : String → Option String) (fileConfig : GitlabCliConfig)
    (requireProject : Bool) (t : String)
    (ht : normalize options.token = some t)
    (hr : coalesce (normalize options.projectId)
      (coalesce (normalize options.projectPath)
        (coalesce (normalize (env "GITLAB_PROJECT_ID"))
          (normalize (env "GITLAB_PROJECT_PATH")))) = none) :
    resolveGitlabProfiles options env fileConfig requireProject
      = .error "Missing project reference. Use --project-id/--project-path or env variables." := by
  simp only [resolveGitlabProfiles, ht, Option.isSome_some, true_or, if_true]
  simp only [resolveGitlabConfig, ht, hr]
  simp only [coalesce, Except.map]

/-- C2 amended witness: `c2_amended_requireProject_ignored` at a concrete
input with `requireProject = true` and a token supplied both ways. -/
theorem c2_amended_witness :
    resolveGitlabProfiles { token := some "tok2" } emptyEnv cfgTeamA true
      = .error "Missing project reference. Use --project-id/--project-path or env variables." :=
  c2_amended_requireProject_ignored { token := some "tok2" } emptyEnv cfgTeamA true
    "tok2" rfl rfl

/-- C3: requesting a configured profile that stores a token and a project
id, with a CLI project-ref override and no CLI token/base-url, yields one
profile carrying the profile's stored token unchanged and the CLI override
as project reference (not the stored project id). -/
theorem c3_cli_project_override_wins (options : GitlabConfigInput)
    (env : String → Option String) (fileConfig : GitlabCliConfig)
    (requireProject : Bool) (name : String) (profile : GitlabCliProfile) (t o : String)
    (htok : normalize options.token = none)
    (hbase : normalize options.baseUrl = none)
    (hall : options.allProfiles = false)
    (hflag : parseCsv (normalize options.profile) = [name])
    (hlook : lookupProfile fileConfig.profiles name = some profile)
    (hptok : normalize profile.token = some t)
    (hov : coalesce (normalize options.projectId) (normalize options.projectPath) = some o) :
    resolveGitlabProfiles options env fileConfig requireProject
      = .ok [{ name := some name,
               baseUrl := normalizeBaseUrl ((coalesce (normalize profile.baseUrl)
                 (normalize fileConfig.baseUrl)).getD "https://gitlab.com"),
               token := t, projectRef := some o }] := by
  simp only [resolveGitlabProfiles, htok, hbase, hall, hflag, hov, Option.isSome_none,
    Bool.false_eq_true, if_false, or_self, ne_eq, List.cons_ne_nil, not_false_eq_true,
    if_true]
  simp only [resolveFromConfigProfiles, hlook, hptok]
  simp only [coalesce, reduceCtorEq, false_and, if_false, ne_eq, List.cons_ne_nil,
    not_false_eq_true, if_true]

/-- C3 witness: `c3_cli_project_override_wins` at the spec's `teamA`
document with CLI args `profile = teamA`, `projectId = 999`. -/
theorem c3_witness :
    resolveGitlabProfiles { profile := some "teamA", projectId := some "999" }
      emptyEnv cfgTeamA true
      = .ok [{ name := some "teamA", baseUrl := "https://gitlab.com",
               token := "token-a", projectRef := some "999" }] := by
  exact c3_cli_project_override_wins
    { profile := some "teamA", projectId := some "999" } emptyEnv cfgTeamA true
    "teamA" { token := some "token-a", projectId := some "111" } "token-a" "999"
    rfl rfl rfl rfl rfl rfl rfl

/-- C10: `resolveGitlabProfiles` never returns an empty list: every
successful return is non-empty (each return site is a singleton, a
list guarded to be non-empty, or the terminal `resolveGitlabConfig`
fallback, which throws when nothing can be resolved). -/
theorem c10_resolve_never_empty (options : GitlabConfigInput)
    (env : String → Option String) (fileConfig : GitlabCliConfig)
    (requireProject : Bool) (l : List ResolvedProfile)
    (h : resolveGitlabProfiles options env fileConfig requireProject = .ok l) :
    l ≠ [] := by
  simp only [resolveGitlabProfiles] at h
  split at h
  · exact configMap_ne_nil options env l h
  · split at h
    · exact Except.noConfusion h
    · split at h
      · cases h
        assumption
      · split at h
        · split at h
          · cases h
            exact List.cons_ne_nil _ _
          · exact resolveEnvProfilesStage_ne_nil _ _ _ _ _ l h
        · exact resolveEnvProfilesStage_ne_nil _ _ _ _ _ l h

/-- C10 witness: `c10_resolve_never_empty` at a concrete invocation that
resolves successfully. -/
theorem c10_witness :
    ([{ name := none, baseUrl := "https://gitlab.com", token := "t",
        projectRef := some "1" }] : List ResolvedProfile) ≠ [] :=
  c10_resolve_never_empty { token := some "t", projectId := some "1" } emptyEnv {} true
    [{ name := none, baseUrl := "https://gitlab.com", token := "t", projectRef := some "1" }]
    (by rfl)

/-- C1 witness: `c1_cli_overrides_single_profile` at the repository test's
concrete CLI overrides, against a non-trivial config document, showing the
document is ignored. -/
theorem c1_witness :
    resolveGitlabProfiles
      { token := some "cli-token", projectId := some "333",
        baseUrl := some "https://cli.example.com" } emptyEnv cfgTeamA true
      = .ok [{ name := none, baseUrl := "https://cli.example.com", token := "cli-token",
               projectRef := some "333" }] := by
  exact c1_cli_overrides_single_profile
    { token := some "cli-token", projectId := some "333",
      baseUrl := some "https://cli.example.com" } emptyEnv cfgTeamA true
    "cli-token" "https://cli.example.com" "333" rfl rfl rfl

/-- C8: base URL normalization (the `replace(/\/+$/, '') || baseUrl` step,
applied to the already-trimmed value) is idempotent on every string, maps
`https://x.com///` to `https://x.com`, keeps the original value whenever
stripping all trailing slashes would yield the empty string, and never
produces the empty string from a non-empty input. -/
theorem c8_normalizeBaseUrl_idempotent :
    (∀ s : String, normalizeBaseUrl (normalizeBaseUrl s) = normalizeBaseUrl s)
    ∧ normalizeBaseUrl "https://x.com///" = "https://x.com"
    ∧ (∀ s : String, stripTrailingSlashes s = "" → normalizeBaseUrl s = s)
    ∧ (∀ s : String, s ≠ "" → normalizeBaseUrl s ≠ "") :=
  ⟨normalizeBaseUrl_idem, by decide, normalizeBaseUrl_of_strip_empty, normalizeBaseUrl_ne_empty⟩

/-- C8 witness: `c8_normalizeBaseUrl_idempotent` instantiated at concrete
inputs, discharging the hypotheses of its guarded parts. -/
theorem c8_normalizeBaseUrl_witness :
    normalizeBaseUrl (normalizeBaseUrl "https://x.com///") = normalizeBaseUrl "https://x.com///"
    ∧ normalizeBaseUrl "///" = "///"
    ∧ normalizeBaseUrl "https://x.com" ≠ "" :=
  ⟨c8_normalizeBaseUrl_idempotent.1 "https://x.com///",
   c8_normalizeBaseUrl_idempotent.2.2.1 "///" (by decide),
   c8_normalizeBaseUrl_idempotent.2.2.2 "https://x.com" (by decide)⟩

/-- C4 counterexample: `parseCsv` does NOT de-duplicate. The flag value
`a,b,a` parses to `["a", "b", "a"]` with `a` appearing twice, and resolving
it against a document in which profile `a` exists returns TWO resolved
profiles for the name `a`. -/
theorem c4_parseCsv_counterexample :
    parseCsv (normalize (some "a,b,a")) = ["a", "b", "a"]
    ∧ (parseCsv (normalize (some "a,b,a"))).count "a" = 2
    ∧ resolveGitlabProfiles { profile := some "a,b,a" } emptyEnv cfgDupExample true
        = .ok [profileDupExample, profileDupExample] :=
  ⟨rfl, rfl, rfl⟩

/-- C4 amended: the requested-profile list is obtained by splitting on
commas, trimming each entry and dropping empty entries, with NO
de-duplication; consequently the config stage resolves one profile per
occurrence of a configured name: on success the resolved profile names are
exactly the requested names that exist in the document, in order, duplicates
included. -/
theorem c4_requested_profiles_amended (fileConfig : GitlabCliConfig)
    (projectOverride : Option String) (requireProject : Bool)
    (names : List String) (l : List ResolvedProfile)
    (h : resolveFromConfigProfiles fileConfig projectOverride requireProject names = .ok l) :
    l.map (fun p => p.name)
      = (names.filter (fun n => (lookupProfile fileConfig.profiles n).isSome)).map some := by
  induction names generalizing l with
  | nil =>
    simp only [resolveFromConfigProfiles] at h
    cases h
    rfl
  | cons name rest ih =>
    rw [resolveFromConfigProfiles] at h
    cases hl : lookupProfile fileConfig.profiles name with
    | none =>
      simp only [hl] at h
      rw [List.filter_cons_of_neg (by simp [hl])]
      exact ih l h
    | some profile =>
      simp only [hl] at h
      cases htok : coalesce (normalize profile.token) (normalize fileConfig.token) with
      | none =>
        simp only [htok] at h
        exact Except.noConfusion h
      | some token =>
        simp only [htok] at h
        split at h
        · exact Except.noConfusion h
        · cases hrec : resolveFromConfigProfiles fileConfig projectOverride requireProject rest with
          | error e =>
            simp only [hrec] at h
            exact Except.noConfusion h
          | ok others =>
            simp only [hrec] at h
            cases h
            rw [List.filter_cons_of_pos (by simp [hl])]
            simp only [List.map_cons]
            rw [ih others hrec]

/-- C4 amended witness: `c4_requested_profiles_amended` at the concrete
duplicated request `["a", "b", "a"]` against `cfgDupExample`. -/
theorem c4_requested_profiles_witness :
    [profileDupExample, profileDupExample].map (fun p => p.name)
      = (["a", "b", "a"].filter
          (fun n => (lookupProfile cfgDupExample.profiles n).isSome)).map some :=
  c4_requested_profiles_amended cfgDupExample none true ["a", "b", "a"]
    [profileDupExample, profileDupExample] (by rfl)

/-- C9: toggling a favorite is an involution on the derived set of favorite
keys: for every favorites collection, every choice and every key `k`,
toggling the same choice twice leaves membership of `k` in the collection's
key set unchanged. -/
theorem c9_toggleFavorite_involution (records : List FavoriteProjectRecord)
    (choice : InteractiveProjectChoice) (k : String) :
    (k ∈ (toggleFavorite (toggleFavorite records choice) choice).map recordKey
      ↔ k ∈ records.map recordKey) := by
  by_cases hmem : favoriteKey choice.projectRef choice.profileName ∈ records.map recordKey
  · have h1 : toggleFavorite records choice
        = records.filter
            (fun r => recordKey r != favoriteKey choice.projectRef choice.profileName) := by
      rw [toggleFavorite, if_pos hmem]
    have hnot : favoriteKey choice.projectRef choice.profileName
        ∉ (toggleFavorite records choice).map recordKey := by
      rw [h1, mem_keys_filter]
      tauto
    rw [toggleFavorite, if_neg hnot, h1, filter_key_filter_key]
    rw [List.map_append, List.mem_append]
    have hnewkey : recordKey (newFavoriteRecord choice)
        = favoriteKey choice.projectRef choice.profileName := rfl
    simp only [List.map_cons, List.map_nil, hnewkey, List.mem_singleton]
    rw [mem_keys_filter]
    constructor
    · rintro (⟨_, hk⟩ | rfl)
      · exact hk
      · exact hmem
    · intro hk
      by_cases hkk : k = favoriteKey choice.projectRef choice.profileName
      · exact Or.inr hkk
      · exact Or.inl ⟨hkk, hk⟩
  · have h1 : toggleFavorite records choice
        = records ++ [newFavoriteRecord choice] := by
      rw [toggleFavorite, if_neg hmem, filter_key_of_not_mem records _ hmem]
    have hin : favoriteKey choice.projectRef choice.profileName
        ∈ (toggleFavorite records choice).map recordKey := by
      rw [h1, List.map_append, List.mem_append]
      exact Or.inr (by simp [newFavoriteRecord, recordKey])
    rw [toggleFavorite, if_pos hin, h1, List.filter_append,
      filter_key_of_not_mem records _ hmem]
    have hdrop : ([newFavoriteRecord choice] : List FavoriteProjectRecord).filter
          (fun r => recordKey r != favoriteKey choice.projectRef choice.profileName) = [] := by
      simp [newFavoriteRecord, recordKey]
    rw [hdrop, List.append_nil]

/-- C5 counterexample: a transport failure in the per-profile fetch (the
uncaught `showCurrentUser` / `MergeRequests.all` calls) of the first profile
aborts the whole loop: the second profile's items are never attempted even
though two profiles were resolved, contradicting the claim that every
profile in the resolved list is processed before the aggregate failure is
raised. -/
theorem c5_review_counterexample :
    (reviewAssignedCommand [⟨.error "transport error"⟩, ⟨.ok [true]⟩]).1 = []
    ∧ (reviewAssignedCommand [⟨.error "transport error"⟩, ⟨.ok [true]⟩]).2
        = .error "transport error"
    ∧ ([⟨.error "transport error"⟩, ⟨.ok [true]⟩] : List ProfileRun).length = 2 :=
  ⟨rfl, rfl, rfl⟩

/-- C5 amended: when every profile's fetch step succeeds, the
`review-assigned` loop attempts every assigned merge request of every
profile (per-item failures are caught and recorded), and it ends in the
aggregate failure exactly when at least one item failed; an uncaught fetch
failure, by contrast, aborts the remaining profiles. -/
theorem c5_review_amended (profiles : List ProfileRun)
    (h : ∀ p ∈ profiles, ∃ outcomes, p.fetch = .ok outcomes) :
    (reviewAssignedCommand profiles).1 = profiles.map (fun p => p.fetch.toOption.getD [])
    ∧ ((reviewAssignedCommand profiles).2 = .ok ()
        ↔ ∀ p ∈ profiles, ∀ b ∈ p.fetch.toOption.getD [], b = true) := by
  have hrun := runReviewProfiles_all_ok profiles h
  rw [reviewAssignedCommand, hrun]
  dsimp only
  refine ⟨rfl, ?_⟩
  by_cases hfail :
      profiles.any (fun p => (p.fetch.toOption.getD []).any (fun ok => !ok)) = true
  · rw [if_pos hfail]
    simp only [List.any_eq_true, Bool.not_eq_true'] at hfail
    obtain ⟨p, hp, b, hb, hbf⟩ := hfail
    constructor
    · intro hcontra
      cases hcontra
    · intro hall
      exact absurd (hall p hp b hb) (by rw [hbf]; exact Bool.false_ne_true)
  · rw [if_neg hfail]
    simp only [List.any_eq_true, Bool.not_eq_true', not_exists, not_and] at hfail
    constructor
    · intro _ p hp b hb
      by_contra hbne
      exact hfail p hp b hb (Bool.not_eq_true b ▸ hbne)
    · intro _
      rfl

/-- C5 amended witness: `c5_review_amended` at a concrete two-profile run in
which one merge request of the first profile fails: both profiles' items are
attempted and the command ends in the aggregate failure. -/
theorem c5_review_witness :
    (reviewAssignedCommand [⟨.ok [true, false]⟩, ⟨.ok [true]⟩]).1 = [[true, false], [true]]
    ∧ (reviewAssignedCommand [⟨.ok [true, false]⟩, ⟨.ok [true]⟩]).2 ≠ .ok () := by
  have h := c5_review_amended [⟨.ok [true, false]⟩, ⟨.ok [true]⟩]
    (by
      intro p hp
      rcases List.mem_cons.mp hp with rfl | hp2
      · exact ⟨[true, false], rfl⟩
      · rcases List.mem_cons.mp hp2 with rfl | hp3
        · exact ⟨[true], rfl⟩
        · cases hp3)
  refine ⟨h.1.trans (by rfl), ?_⟩
  intro hok
  have hall := h.2.mp hok
  have := hall ⟨.ok [true, false]⟩ (List.mem_cons_self _ _) false (by decide)
  cases this

end GitlabCli

namespace GitlabCli

/-- C6: the paged-selector invariant holds after every keypress sequence
from the initial state: the selection index stays within `[0, n-1]` and the
page index equals `floor(selectionIndex / pageSize)` after every up, down,
left/pageup, right/pagedown, digit and favorite-toggle transition. -/
theorem c6_pager_invariant (n p : Nat) (hn : 0 < n) (hp : 0 < p)
    (keys : List PagerKey) : PagerInv n p (pagerRun n p keys) := by
  suffices h : ∀ s : PagerState, PagerInv n p s
      → PagerInv n p (keys.foldl (pagerStep n p) s) by
    exact h ⟨0, 0⟩ ⟨hn, (Nat.zero_div p).symm⟩
  induction keys with
  | nil => intro s hs; exact hs
  | cons k ks ih =>
    intro s hs
    exact ih _ (pagerStep_preserves_inv n p hn hp s k hs)

/-- C6 witness: `c6_pager_invariant` at 25 items and page size 10, together
with the claim's concrete runs: nine ↓ from the start reach index 9 on page
0, a tenth reaches index 10 on page 1. -/
theorem c6_pager_witness :
    PagerInv 25 10 (pagerRun 25 10 (List.replicate 10 PagerKey.down))
    ∧ pagerRun 25 10 (List.replicate 9 PagerKey.down) = ⟨9, 0⟩
    ∧ pagerRun 25 10 (List.replicate 10 PagerKey.down) = ⟨10, 1⟩ :=
  ⟨c6_pager_invariant 25 10 (by decide) (by decide) (List.replicate 10 PagerKey.down),
   by decide, by decide⟩

/-- C7: pressing digit `d` (1–9) sets the selection to
`pageIndex*pageSize + (d-1)` exactly when that index is within the current
page and within bounds, and leaves the state unchanged otherwise (stated for
reachable states, i.e. under the selector invariant). -/
theorem c7_digit_select (n p : Nat) (s : PagerState) (d : Nat) (hp : 0 < p)
    (hd : 1 ≤ d ∧ d ≤ 9) (hinv : PagerInv n p s) :
    ((s.pageIndex * p + (d - 1) < n ∧ s.pageIndex * p + (d - 1) < s.pageIndex * p + p →
        pagerStep n p s (.digit d) = { s with selectionIndex := s.pageIndex * p + (d - 1) })
      ∧ (¬(s.pageIndex * p + (d - 1) < n ∧ s.pageIndex * p + (d - 1) < s.pageIndex * p + p) →
        pagerStep n p s (.digit d) = s)
      ∧ ((pagerStep n p s (.digit d)).selectionIndex = s.pageIndex * p + (d - 1)
          ↔ (s.pageIndex * p + (d - 1) < n
              ∧ s.pageIndex * p + (d - 1) < s.pageIndex * p + p))) := by
  obtain ⟨hb1, hb2⟩ := pagerInv_bounds hp hinv
  obtain ⟨hsel, hpage⟩ := hinv
  refine ⟨?_, ?_, ?_, ?_⟩
  · intro hcond
    simp only [pagerStep, if_pos hd, if_pos hcond]
  · intro hcond
    simp only [pagerStep, if_pos hd, if_neg hcond]
  · intro heq
    by_contra hcond
    have hstep : pagerStep n p s (.digit d) = s := by
      simp only [pagerStep, if_pos hd, if_neg hcond]
    rw [hstep] at heq
    omega
  · intro hcond
    simp only [pagerStep, if_pos hd, if_pos hcond]

/-- C7 witness: `c7_digit_select` at 25 items, page size 10, on page 1 at
index 10: pressing `5` selects absolute index 14. -/
theorem c7_digit_witness :
    (pagerStep 25 10 ⟨10, 1⟩ (PagerKey.digit 5)).selectionIndex = 14 := by
  have h := c7_digit_select 25 10 ⟨10, 1⟩ 5 (by decide) (by decide)
    ⟨by decide, by decide⟩
  rw [h.1 (by decide)]
  rfl

end GitlabCli
